import Mathlib

/-!
Verification development for the faceswap loss engine
(`lib/model/losses_plaid.py`).

The SSIM family (`DSSIMObjective`, `MSSIMLoss`) is embedded over image
batches modelled as total functions `ℕ → ℕ → ℕ → ℕ → ℚ`
(sample, row, column, channel), channels last, with explicit batch /
spatial / channel counts.  The slicing-based losses (`GeneralizedLoss`,
`LInfNorm`, `GradientLoss`, `LossWrapper`) are embedded over nested
lists, which translate Python slicing and concatenation directly.

The numeric backend primitives that the source calls but does not
define are passed in as function parameters: `expf` for the
exponential used by `K.softmax`, and `kpow` for the elementwise power
`K.pow`.  Theorems that depend on their behaviour take the relevant
algebraic facts (`kpow 1 e = 1`, `kpow x 2 = x * x`, positivity of
`expf`) as hypotheses.
-/

/-- Batched channels-last image: value at (sample, row, column, channel).
Total function model; shape bounds are carried separately. -/
def Img : Type := ℕ → ℕ → ℕ → ℕ → ℚ

/-- Elementwise product of two images (`y_true * y_pred`). -/
def imgMul (a b : Img) : Img := fun n i j c => a n i j c * b n i j c

/-- Elementwise square (`K.square`). -/
def imgSq (a : Img) : Img := imgMul a a

/-- Elementwise sum of two images. -/
def imgAdd (a b : Img) : Img := fun n i j c => a n i j c + b n i j c

/-- `DSSIMObjective._get_kernel`: 1-D coordinate offsets centred at zero,
`coords[i] = i - (filter_size - 1) / 2`. -/
def kcoord (fs : ℕ) (i : ℕ) : ℚ := (i : ℚ) - ((fs : ℚ) - 1) / 2

/-- `DSSIMObjective._get_kernel`: squared coordinates scaled by
`-0.5 / filter_sigma ** 2`. -/
def kquad (fs : ℕ) (sigma : ℚ) (i : ℕ) : ℚ :=
  (kcoord fs i) ^ 2 * (-(1 / 2) / sigma ^ 2)

/-- `DSSIMObjective._get_kernel`: the 2-D quadratic bowl obtained from the
outer sum `reshape(kernel, (1, -1)) + reshape(kernel, (-1, 1))`;
entry `(i, j)` is `kquad j + kquad i`. -/
def kbowl (fs : ℕ) (sigma : ℚ) (i j : ℕ) : ℚ :=
  kquad fs sigma j + kquad fs sigma i

/-- Softmax denominator over the flattened bowl, with the backend
exponential `expf`. -/
def ksoftmaxDen (expf : ℚ → ℚ) (fs : ℕ) (sigma : ℚ) : ℚ :=
  Finset.sum (Finset.range fs) (fun p =>
    Finset.sum (Finset.range fs) (fun q => expf (kbowl fs sigma p q)))

/-- One entry of the normalised Gaussian kernel: `K.softmax` of the
flattened bowl, reshaped back to `(fs, fs, 1, 1)`. -/
def kernelEntry (expf : ℚ → ℚ) (fs : ℕ) (sigma : ℚ) (i j : ℕ) : ℚ :=
  expf (kbowl fs sigma i j) / ksoftmaxDen expf fs sigma

/-- `DSSIMObjective._get_kernel`: the kernel as a list of rows. -/
def getKernel (expf : ℚ → ℚ) (fs : ℕ) (sigma : ℚ) : List (List ℚ) :=
  (List.range fs).map (fun i =>
    (List.range fs).map (fun j => kernelEntry expf fs sigma i j))

/-- Kernel entry lookup (0 outside the stored rows). -/
def kernelAt (ker : List (List ℚ)) (p q : ℕ) : ℚ :=
  (ker.getD p []).getD q 0

/-- Component state of `DSSIMObjective` / `MSSIMLoss`: the constants
`c1`, `c2`, the filter configuration, the stored kernel and the
MS-SSIM power factors. -/
structure SSIMState where
  c1 : ℚ
  c2 : ℚ
  filter_size : ℕ
  filter_sigma : ℚ
  kernel : List (List ℚ)
  power_factors : List ℚ

/-- `DSSIMObjective.__init__` (with `MSSIMLoss`'s power factors):
`c1 = (k_1 * max_value) ** 2`, `c2 = (k_2 * max_value) ** 2 * compensation`
with `compensation = 1.0`, and the kernel built by `_get_kernel`. -/
def DSSIMObjective_init (expf : ℚ → ℚ) (k_1 k_2 : ℚ) (fs : ℕ)
    (sigma maxval : ℚ) (pf : List ℚ) : SSIMState :=
  { c1 := (k_1 * maxval) ^ 2
    c2 := (k_2 * maxval) ^ 2 * 1
    filter_size := fs
    filter_sigma := sigma
    kernel := getKernel expf fs sigma
    power_factors := pf }

/-- `DSSIMObjective._depthwise_conv2d`: per-channel valid convolution with
stride 1; output position `(i, j)` sums the kernel window over the
input starting at `(i, j)`. -/
def depthwise_conv2d (ker : List (List ℚ)) (fs : ℕ) (img : Img) : Img :=
  fun n i j c =>
    Finset.sum (Finset.range fs) (fun p =>
      Finset.sum (Finset.range fs) (fun q =>
        kernelAt ker p q * img n (i + p) (j + q) c))

/-- Windowed mean (`mean_true` / `mean_pred` in `_get_ssim`). -/
def mu (st : SSIMState) (y : Img) : Img :=
  depthwise_conv2d st.kernel st.filter_size y

/-- `num_lum = mean_true * mean_pred * 2.0`. -/
def num_lum (st : SSIMState) (yt yp : Img) : Img :=
  fun n i j c => mu st yt n i j c * mu st yp n i j c * 2

/-- `den_lum = K.square(mean_true) + K.square(mean_pred)`. -/
def den_lum (st : SSIMState) (yt yp : Img) : Img :=
  fun n i j c => (mu st yt n i j c) ^ 2 + (mu st yp n i j c) ^ 2

/-- `luminance = (num_lum + c1) / (den_lum + c1)`. -/
def luminance (st : SSIMState) (yt yp : Img) : Img :=
  fun n i j c =>
    (num_lum st yt yp n i j c + st.c1) / (den_lum st yt yp n i j c + st.c1)

/-- `num_con = conv(y_true * y_pred) * 2.0`. -/
def num_con (st : SSIMState) (yt yp : Img) : Img :=
  fun n i j c =>
    depthwise_conv2d st.kernel st.filter_size (imgMul yt yp) n i j c * 2

/-- `den_con = conv(K.square(y_true) + K.square(y_pred))`. -/
def den_con (st : SSIMState) (yt yp : Img) : Img :=
  depthwise_conv2d st.kernel st.filter_size (imgAdd (imgSq yt) (imgSq yp))

/-- `contrast = (num_con - num_lum + c2) / (den_con - den_lum + c2)`. -/
def contrastMap (st : SSIMState) (yt yp : Img) : Img :=
  fun n i j c =>
    (num_con st yt yp n i j c - num_lum st yt yp n i j c + st.c2) /
      (den_con st yt yp n i j c - den_lum st yt yp n i j c + st.c2)

/-- `ssim_map = luminance * contrast` (before spatial averaging). -/
def ssimMap (st : SSIMState) (yt yp : Img) : Img :=
  fun n i j c => luminance st yt yp n i j c * contrastMap st yt yp n i j c

/-- `K.mean(..., axis=(-3, -2))`: averages an (N, outH, outW, C) map over
the two spatial axes, giving a per-sample per-channel matrix. -/
def spatialMean (outH outW : ℕ) (x : Img) : ℕ → ℕ → ℚ :=
  fun n c =>
    (Finset.sum (Finset.range outH) (fun i =>
      Finset.sum (Finset.range outW) (fun j => x n i j c))) /
      ((outH : ℚ) * (outW : ℚ))

/-- `DSSIMObjective._get_ssim` on square spatial size `S`: returns the
pair (mean SSIM, mean contrast), each of shape (N, C); the valid
convolution output has spatial size `S - filter_size + 1`. -/
def get_ssim (st : SSIMState) (S : ℕ) (yt yp : Img) :
    (ℕ → ℕ → ℚ) × (ℕ → ℕ → ℚ) :=
  (spatialMean (S - st.filter_size + 1) (S - st.filter_size + 1)
      (ssimMap st yt yp),
   spatialMean (S - st.filter_size + 1) (S - st.filter_size + 1)
      (contrastMap st yt yp))

/-- `DSSIMObjective.__call__` with batch size `N`, channels `C`, spatial
size `S`: `K.mean((1 - ssim) / 2.0)` — the unqualified `K.mean` reduces
over every axis, so the result is a single rational. -/
def DSSIM_call (st : SSIMState) (N C S : ℕ) (yt yp : Img) : ℚ :=
  (Finset.sum (Finset.range N) (fun n =>
    Finset.sum (Finset.range C) (fun c =>
      (1 - (get_ssim st S yt yp).1 n c) / 2))) / ((N : ℚ) * (C : ℚ))

/-- `MSSIMLoss._get_smallest_size`: recursive floor-halving, `idx` times. -/
def get_smallest_size : ℕ → ℕ → ℕ
  | s, 0 => s
  | s, k + 1 => get_smallest_size (s / 2) k

/-- The filter auto-shrink step at the top of `MSSIMLoss._get_ms_ssim`:
if the smallest scale is below the configured filter size, the filter
size becomes the smallest scale and the kernel is rebuilt. -/
def update_filter (expf : ℚ → ℚ) (st : SSIMState) (S : ℕ) : SSIMState :=
  if get_smallest_size S (st.power_factors.length - 1) < st.filter_size then
    { st with
      filter_size := get_smallest_size S (st.power_factors.length - 1)
      kernel := getKernel expf
        (get_smallest_size S (st.power_factors.length - 1)) st.filter_sigma }
  else st

/-- Spatial size after one `MSSIMLoss._shrink_images` step: odd sizes are
reflect-padded by one before the 2x2 stride-2 average pool. -/
def half_size (s : ℕ) : ℕ := (s + s % 2) / 2

/-- Reflect index for trailing-edge padding of a length-`s` axis by one
(TensorFlow REFLECT mode: the new index `s` mirrors to `s - 2`). -/
def reflect_idx (s : ℕ) (i : ℕ) : ℕ := if i < s then i else s - 2

/-- Reflect-pad both spatial axes of a square image by one trailing pixel. -/
def pad_reflect (s : ℕ) (img : Img) : Img :=
  fun n i j c => img n (reflect_idx s i) (reflect_idx s j) c

/-- 2x2 stride-2 average pooling (`K.pool2d(..., pool_mode="avg")`). -/
def pool2 (img : Img) : Img :=
  fun n i j c =>
    (img n (2 * i) (2 * j) c + img n (2 * i) (2 * j + 1) c +
      img n (2 * i + 1) (2 * j) c + img n (2 * i + 1) (2 * j + 1) c) / 4

/-- `MSSIMLoss._shrink_images` applied to one image of spatial size `s`. -/
def shrink_one (s : ℕ) (img : Img) : Img :=
  if s % 2 ≠ 0 then pool2 (pad_reflect s img) else pool2 img

/-- `K.relu`. -/
def krelu (x : ℚ) : ℚ := max x 0

/-- The per-scale components produced by the loop in
`MSSIMLoss._get_ms_ssim`: contrast means for every scale except the
last, then the SSIM mean of the last (smallest) scale; each subsequent
scale first halves both images. -/
def ms_components (st : SSIMState) : ℕ → ℕ → Img → Img →
    List (ℕ → ℕ → ℚ)
  | 0, _, _, _ => []
  | 1, s, yt, yp => [(get_ssim st s yt yp).1]
  | k + 2, s, yt, yp =>
    (get_ssim st s yt yp).2 ::
      ms_components st (k + 1) (half_size s) (shrink_one s yt) (shrink_one s yp)

/-- The sequential product `out = ms_ssim[..., 0]; out *= ms_ssim[..., idx]`
over the scale axis. -/
def prod_scales : List ℚ → ℚ
  | [] => 1
  | x :: xs => xs.foldl (fun a b => a * b) x

/-- The multiscale score of `MSSIMLoss._get_ms_ssim` (after the filter
auto-shrink): relu of each per-scale component, raised elementwise to
its power factor with the backend power `kpow`, multiplied across the
scale axis. -/
def ms_ssim_val (kpow : ℚ → ℚ → ℚ) (st : SSIMState) (S : ℕ)
    (yt yp : Img) : ℕ → ℕ → ℚ :=
  fun n c =>
    prod_scales (List.zipWith (fun m w => kpow (krelu (m n c)) w)
      (ms_components st st.power_factors.length S yt yp) st.power_factors)

/-- `MSSIMLoss._get_ms_ssim`: mutates the component state via the filter
auto-shrink, then computes the multiscale score with the updated state. -/
def get_ms_ssim (expf : ℚ → ℚ) (kpow : ℚ → ℚ → ℚ) (st : SSIMState)
    (S : ℕ) (yt yp : Img) : SSIMState × (ℕ → ℕ → ℚ) :=
  (update_filter expf st S, ms_ssim_val kpow (update_filter expf st S) S yt yp)

/-- `MSSIMLoss.__call__`: `K.mean(1.0 - ms_ssim)` over the (N, C) score,
returned together with the (possibly mutated) component state. -/
def MSSIM_call (expf : ℚ → ℚ) (kpow : ℚ → ℚ → ℚ) (st : SSIMState)
    (N C S : ℕ) (yt yp : Img) : SSIMState × ℚ :=
  ((get_ms_ssim expf kpow st S yt yp).1,
   (Finset.sum (Finset.range N) (fun n =>
      Finset.sum (Finset.range C) (fun c =>
        1 - (get_ms_ssim expf kpow st S yt yp).2 n c))) /
     ((N : ℚ) * (C : ℚ)))

/-- Kernel wellformedness for a filter size: nonnegative weights summing
to one over the `fs × fs` window. -/
def kernelOK (ker : List (List ℚ)) (fs : ℕ) : Prop :=
  (∀ p < fs, ∀ q < fs, 0 ≤ kernelAt ker p q) ∧
    (Finset.sum (Finset.range fs) (fun p =>
      Finset.sum (Finset.range fs) (fun q => kernelAt ker p q))) = 1

/-! ## List-based tensors for the slicing losses and the aggregator -/

/-- Rank-4 tensor (batch, rows, columns, channels) as nested lists. -/
abbrev T4 : Type := List (List (List (List ℚ)))

/-- Rank-3 tensor (batch, rows, columns). -/
abbrev T3 : Type := List (List (List ℚ))

/-- Elementwise difference `a - b` of two rank-4 tensors. -/
def zipSub4 (a b : T4) : T4 :=
  List.zipWith (fun x y =>
    List.zipWith (fun u v =>
      List.zipWith (fun r s => List.zipWith (fun p q => p - q) r s) u v) x y) a b

/-- Elementwise sum of two rank-4 tensors. -/
def zipAdd4 (a b : T4) : T4 :=
  List.zipWith (fun x y =>
    List.zipWith (fun u v =>
      List.zipWith (fun r s => List.zipWith (fun p q => p + q) r s) u v) x y) a b

/-- Elementwise product of two rank-4 tensors. -/
def zipMul4 (a b : T4) : T4 :=
  List.zipWith (fun x y =>
    List.zipWith (fun u v =>
      List.zipWith (fun r s => List.zipWith (fun p q => p * q) r s) u v) x y) a b

/-- Map a scalar function over every entry of a rank-4 tensor. -/
def map4 (f : ℚ → ℚ) (t : T4) : T4 :=
  t.map (fun a => a.map (fun b => b.map (fun c => c.map f)))

/-- Map a scalar function over every entry of a rank-3 tensor. -/
def map3 (f : ℚ → ℚ) (t : T3) : T3 :=
  t.map (fun a => a.map (fun b => b.map f))

/-- Elementwise sum of two rank-3 tensors. -/
def zipAdd3 (a b : T3) : T3 :=
  List.zipWith (fun x y =>
    List.zipWith (fun u v => List.zipWith (fun p q => p + q) u v) x y) a b

/-- Sum of a list of rationals. -/
def qsum (l : List ℚ) : ℚ := l.foldr (fun a b => a + b) 0

/-- Mean of a list of rationals (0 for the empty list). -/
def qmean (l : List ℚ) : ℚ := qsum l / (l.length : ℚ)

/-- `K.mean(..., axis=-1)`: mean over the trailing channel axis. -/
def mean_last (t : T4) : T3 :=
  t.map (fun a => a.map (fun b => b.map qmean))

/-- The elementwise body of `GeneralizedLoss.__call__`:
`(|2 - alpha| / alpha) * (K.pow(K.pow(d / beta, 2) / |2 - alpha| + 1, alpha / 2) - 1)`. -/
def generalized_elem (alpha beta : ℚ) (kpow : ℚ → ℚ → ℚ) (d : ℚ) : ℚ :=
  (|2 - alpha| / alpha) *
    (kpow (kpow (d / beta) 2 / |2 - alpha| + 1) (alpha / 2) - 1)

/-- `GeneralizedLoss.__call__`: elementwise robust loss of
`diff = y_pred - y_true`, mean over the last axis, times `beta`. -/
def generalized_loss (alpha beta : ℚ) (kpow : ℚ → ℚ → ℚ)
    (y_true y_pred : T4) : T3 :=
  map3 (fun x => x * beta)
    (mean_last (map4 (generalized_elem alpha beta kpow) (zipSub4 y_pred y_true)))

/-- `lib.utils.FaceswapError`. -/
structure FaceswapError where
  msg : String
deriving DecidableEq

/-- A rank-polymorphic backend value, as returned by a sub-loss. -/
inductive TVal where
  | scal (q : ℚ)
  | tens (xs : List TVal)

/-- `GeneralizedLoss.__call__` as a loss callable: the source contains no
parameter validation and no raise, so every call returns a value. -/
def GeneralizedLoss_call (alpha beta : ℚ) (kpow : ℚ → ℚ → ℚ)
    (y_true y_pred : T4) : Except FaceswapError T3 :=
  Except.ok (generalized_loss alpha beta kpow y_true y_pred)

/-- Channelwise maximum of two channel vectors. -/
def vecMax (a b : List ℚ) : List ℚ := List.zipWith max a b

/-- `K.max(diff, axis=(1, 2))` for one sample: maximum per channel over
all spatial positions. -/
def cellMax (s : List (List (List ℚ))) : List ℚ :=
  match s.flatten with
  | [] => []
  | v :: vs => vs.foldl vecMax v

/-- `LInfNorm.__call__`: `K.abs(y_true - y_pred)`, spatial maximum with
keepdims, mean over the channel axis; output shape (N, 1, 1). -/
def linf_norm (y_true y_pred : T4) : T3 :=
  (map4 (fun x => |x|) (zipSub4 y_true y_pred)).map
    (fun s => [[qmean (cellMax s)]])

/-! ### GradientLoss slicing primitives

Python slices on the row axis (axis 1) act on each sample's row list;
slices on the column axis (axis 2) act on each row's column list. -/

/-- `[a:b]` for `0 ≤ a ≤ b`. -/
def slAB {α : Type} (a b : ℕ) (l : List α) : List α := (l.drop a).take (b - a)

/-- `[a:]`. -/
def slFrom {α : Type} (a : ℕ) (l : List α) : List α := l.drop a

/-- `[:-k]`. -/
def slToNeg {α : Type} (k : ℕ) (l : List α) : List α := l.take (l.length - k)

/-- `[-1:]`. -/
def slLastOne {α : Type} (l : List α) : List α := l.drop (l.length - 1)

/-- `[-2:-1]`. -/
def slPenult {α : Type} (l : List α) : List α :=
  (l.drop (l.length - 2)).take 1

/-- Apply a row-list transform (a slice on axis 1) to every sample. -/
def onRows (f : List (List (List ℚ)) → List (List (List ℚ))) (t : T4) : T4 :=
  t.map f

/-- Apply a column-list transform (a slice on axis 2) to every row of
every sample. -/
def onCols (f : List (List ℚ) → List (List ℚ)) (t : T4) : T4 :=
  t.map (fun s => s.map f)

/-- `K.concatenate([a, b, c], axis=1)`. -/
def cat1 (a b c : T4) : T4 :=
  List.zipWith (fun x yz => x ++ yz) a
    (List.zipWith (fun y z => y ++ z) b c)

/-- `K.concatenate([a, b, c], axis=2)`. -/
def cat2 (a b c : T4) : T4 :=
  List.zipWith (fun x yz => List.zipWith (fun r s => r ++ s) x yz) a
    (List.zipWith (fun y z => List.zipWith (fun r s => r ++ s) y z) b c)

/-- `GradientLoss._diff_x`. -/
def diff_x (img : T4) : T4 :=
  let x_left := zipSub4 (onCols (slAB 1 2) img) (onCols (slAB 0 1) img)
  let x_inner := zipSub4 (onCols (slFrom 2) img) (onCols (slToNeg 2) img)
  let x_right := zipSub4 (onCols slLastOne img) (onCols slPenult img)
  map4 (fun v => v * (1 / 2)) (cat2 x_left x_inner x_right)

/-- `GradientLoss._diff_y`. -/
def diff_y (img : T4) : T4 :=
  let y_top := zipSub4 (onRows (slAB 1 2) img) (onRows (slAB 0 1) img)
  let y_inner := zipSub4 (onRows (slFrom 2) img) (onRows (slToNeg 2) img)
  let y_bot := zipSub4 (onRows slLastOne img) (onRows slPenult img)
  map4 (fun v => v * (1 / 2)) (cat1 y_top y_inner y_bot)

/-- `GradientLoss._diff_xx`. -/
def diff_xx (img : T4) : T4 :=
  let x_left := zipAdd4 (onCols (slAB 1 2) img) (onCols (slAB 0 1) img)
  let x_inner := zipAdd4 (onCols (slFrom 2) img) (onCols (slToNeg 2) img)
  let x_right := zipAdd4 (onCols slLastOne img) (onCols slPenult img)
  zipSub4 (cat2 x_left x_inner x_right) (map4 (fun v => 2 * v) img)

/-- `GradientLoss._diff_yy`. -/
def diff_yy (img : T4) : T4 :=
  let y_top := zipAdd4 (onRows (slAB 1 2) img) (onRows (slAB 0 1) img)
  let y_inner := zipAdd4 (onRows (slFrom 2) img) (onRows (slToNeg 2) img)
  let y_bot := zipAdd4 (onRows slLastOne img) (onRows slPenult img)
  zipSub4 (cat1 y_top y_inner y_bot) (map4 (fun v => 2 * v) img)

/-- Row and column slice combined: `img[:, rf, cf, :]`. -/
def rcSlice (rf : List (List (List ℚ)) → List (List (List ℚ)))
    (cf : List (List ℚ) → List (List ℚ)) (img : T4) : T4 :=
  onRows rf (onCols cf img)

/-- `GradientLoss._diff_xy`, translated statement for statement: the
second block of assignments rebinds (shadows) `xy_left`, `xy_mid` and
`xy_right` exactly as the Python source does, so `xy_out1` and
`xy_out2` are built from the same three tensors. -/
def diff_xy (img : T4) : T4 :=
  let top_left := zipAdd4 (rcSlice (slAB 1 2) (slAB 1 2) img)
    (rcSlice (slAB 0 1) (slAB 0 1) img)
  let inner_left := zipAdd4 (rcSlice (slFrom 2) (slAB 1 2) img)
    (rcSlice (slToNeg 2) (slAB 0 1) img)
  let bot_left := zipAdd4 (rcSlice slLastOne (slAB 1 2) img)
    (rcSlice slPenult (slAB 0 1) img)
  let xy_left := cat1 top_left inner_left bot_left
  let top_mid := zipAdd4 (rcSlice (slAB 1 2) (slFrom 2) img)
    (rcSlice (slAB 0 1) (slToNeg 2) img)
  let mid_mid := zipAdd4 (rcSlice (slFrom 2) (slFrom 2) img)
    (rcSlice (slToNeg 2) (slToNeg 2) img)
  let bot_mid := zipAdd4 (rcSlice slLastOne (slFrom 2) img)
    (rcSlice slPenult (slToNeg 2) img)
  let xy_mid := cat1 top_mid mid_mid bot_mid
  let top_right := zipAdd4 (rcSlice (slAB 1 2) slLastOne img)
    (rcSlice (slAB 0 1) slPenult img)
  let inner_right := zipAdd4 (rcSlice (slFrom 2) slLastOne img)
    (rcSlice (slToNeg 2) slPenult img)
  let bot_right := zipAdd4 (rcSlice slLastOne slLastOne img)
    (rcSlice slPenult slPenult img)
  let xy_right := cat1 top_right inner_right bot_right
  let top_left := zipAdd4 (rcSlice (slAB 0 1) (slAB 1 2) img)
    (rcSlice (slAB 1 2) (slAB 0 1) img)
  let inner_left := zipAdd4 (rcSlice (slToNeg 2) (slAB 1 2) img)
    (rcSlice (slFrom 2) (slAB 0 1) img)
  let bot_left := zipAdd4 (rcSlice slPenult (slAB 1 2) img)
    (rcSlice slLastOne (slAB 0 1) img)
  let xy_left := cat1 top_left inner_left bot_left
  let top_mid := zipAdd4 (rcSlice (slAB 0 1) (slFrom 2) img)
    (rcSlice (slAB 1 2) (slToNeg 2) img)
  let mid_mid := zipAdd4 (rcSlice (slToNeg 2) (slFrom 2) img)
    (rcSlice (slFrom 2) (slToNeg 2) img)
  let bot_mid := zipAdd4 (rcSlice slPenult (slFrom 2) img)
    (rcSlice slLastOne (slToNeg 2) img)
  let xy_mid := cat1 top_mid mid_mid bot_mid
  let top_right := zipAdd4 (rcSlice (slAB 0 1) slLastOne img)
    (rcSlice (slAB 1 2) slPenult img)
  let inner_right := zipAdd4 (rcSlice (slToNeg 2) slLastOne img)
    (rcSlice (slFrom 2) slPenult img)
  let bot_right := zipAdd4 (rcSlice slPenult slLastOne img)
    (rcSlice slLastOne slPenult img)
  let xy_right := cat1 top_right inner_right bot_right
  let xy_out1 := cat2 xy_left xy_mid xy_right
  let xy_out2 := cat2 xy_left xy_mid xy_right
  map4 (fun v => v * (1 / 4)) (zipSub4 xy_out1 xy_out2)

/-- `GradientLoss.__call__`: `alpha = 1.9999`, `beta` left at its default
`1.0 / 255.0`; `(tv_weight * (x-term + y-term) + tv2_weight * (xx-term
+ yy-term + xy-term * 2)) / (tv_weight + tv2_weight)`. -/
def gradient_loss (kpow : ℚ → ℚ → ℚ) (y_true y_pred : T4) : T3 :=
  let gl := generalized_loss (19999 / 10000) (1 / 255) kpow
  let tv_weight : ℚ := 1
  let tv2_weight : ℚ := 1
  map3 (fun v => v / (tv_weight + tv2_weight))
    (zipAdd3
      (map3 (fun v => tv_weight * v)
        (zipAdd3 (gl (diff_x y_true) (diff_x y_pred))
          (gl (diff_y y_true) (diff_y y_pred))))
      (map3 (fun v => tv2_weight * v)
        (zipAdd3 (zipAdd3 (gl (diff_xx y_true) (diff_xx y_pred))
            (gl (diff_yy y_true) (diff_yy y_pred)))
          (map3 (fun v => v * 2) (gl (diff_xy y_true) (diff_xy y_pred))))))

/-- `GMSDLoss.__call__`: raises `FaceswapError` unconditionally, before
any edge computation (the Scharr-edge code after the raise is dead). -/
def GMSDLoss_call (y_true y_pred : T4) : Except FaceswapError TVal :=
  Except.error { msg := "GMSD Loss is not currently compatible with PlaidML. Please select a different Loss method." }

/-! ## LossWrapper -/

/-- Flatten a backend value to its scalars. -/
def TVal.flat : TVal → List ℚ
  | .scal q => [q]
  | .tens xs => (xs.attach.map (fun x => TVal.flat x.1)).flatten
termination_by t => sizeOf t
decreasing_by
  have h := List.sizeOf_lt_of_mem x.2
  simp only [TVal.tens.sizeOf_spec]
  omega

/-- The per-sample reduction `K.mean(this_loss, axis=list(range(1,
loss_dims)))` performed by `LossWrapper.__call__`: a scalar is left
alone; otherwise each top-level slice is replaced by the mean of all
its entries.  The result has rank at most one. -/
inductive WVal where
  | scal (q : ℚ)
  | vec (l : List ℚ)
deriving DecidableEq

/-- `K.mean(v, axis=list(range(1, K.ndim(v))))`. -/
def meanTrailing : TVal → WVal
  | .scal q => .scal q
  | .tens xs => .vec (xs.map (fun s => qmean s.flat))

/-- Scale by the registered weight. -/
def wScale (w : ℚ) : WVal → WVal
  | .scal q => .scal (q * w)
  | .vec l => .vec (l.map (fun q => q * w))

/-- The accumulating `loss += ...` with numpy-style broadcasting between
the initial Python float `0.0` and per-sample tensors. -/
def wAdd : WVal → WVal → WVal
  | .scal a, .scal b => .scal (a + b)
  | .scal a, .vec l => .vec (l.map (fun q => a + q))
  | .vec l, .scal b => .vec (l.map (fun q => q + b))
  | .vec l, .vec m => .vec (List.zipWith (fun p q => p + q) l m)

/-- Split a flat list into chunks of `n` (row-major regrouping). -/
def chunks {α : Type} (n : ℕ) : List α → List (List α)
  | [] => []
  | x :: xs =>
    if h : n = 0 then []
    else ((x :: xs).take n) :: chunks n ((x :: xs).drop n)
termination_by l => l.length
decreasing_by
  simp only [List.length_drop, List.length_cons]
  omega

/-- Row-major flattening of a rank-4 tensor. -/
def flatten4 (t : T4) : List ℚ :=
  ((t.map (fun a => (a.map (fun b => b.flatten)).flatten)).flatten)

/-- The static shape `K.int_shape(y_pred)` of a rank-4 tensor. -/
def shape4 (t : T4) : ℕ × ℕ × ℕ × ℕ :=
  (t.length, (t.getD 0 []).length, ((t.getD 0 []).getD 0 []).length,
    (((t.getD 0 []).getD 0 []).getD 0 []).length)

/-- `K.reshape(x, shape)` for a rank-4 target shape. -/
def reshape4 (s : ℕ × ℕ × ℕ × ℕ) (l : List ℚ) : T4 :=
  chunks s.2.1 (chunks s.2.2.1 (chunks s.2.2.2 l))

/-- `y[..., :3]`. -/
def take3ch (t : T4) : T4 :=
  t.map (fun a => a.map (fun b => b.map (fun cs => cs.take 3)))

/-- `LossWrapper._apply_mask`: with `mask_channel == -1`, both inputs are
truncated to their first 3 channels; otherwise the named channel of
`y_true` is tiled to 3 channels, blended with mix proportion
`mask_prop`, and multiplied into both truncated tensors. -/
def apply_mask (y_true y_pred : T4) (mask_channel : ℤ) (mask_prop : ℚ) :
    T4 × T4 :=
  if mask_channel = -1 then (take3ch y_true, take3ch y_pred)
  else
    let mask : T4 := y_true.map (fun a => a.map (fun b => b.map (fun cs =>
      let v := cs.getD mask_channel.toNat 0
      [v, v, v])))
    let mask2 := map4 (fun m => m * mask_prop + (1 - mask_prop)) mask
    (zipMul4 (take3ch y_true) mask2, zipMul4 (take3ch y_pred) mask2)

/-- One registration held by `LossWrapper`: the loss callable, its
weight, its mask channel, and whether it `isinstance`s
`DSSIMObjective` (which forces the reshape of `n_pred`). -/
structure LossRegistration where
  func : T4 → T4 → Except FaceswapError TVal
  weight : ℚ
  mask_channel : ℤ
  is_dssim : Bool

/-- `LossWrapper.add_loss`: append-only registration. -/
def add_loss (regs : List LossRegistration) (r : LossRegistration) :
    List LossRegistration :=
  regs ++ [r]

/-- The loop body of `LossWrapper.__call__`: mask, optionally reshape
`n_pred` to the known shape of `y_pred`, invoke the sub-loss, reduce
past the batch axis, weight and accumulate; a raised error aborts the
whole call. -/
def LossWrapper_loop (y_true y_pred : T4) :
    List LossRegistration → WVal → Except FaceswapError WVal
  | [], acc => Except.ok acc
  | r :: rest, acc =>
    let masked := apply_mask y_true y_pred r.mask_channel 1
    let n_pred :=
      if r.is_dssim then reshape4 (shape4 y_pred) (flatten4 masked.2)
      else masked.2
    match r.func masked.1 n_pred with
    | Except.error e => Except.error e
    | Except.ok v =>
      LossWrapper_loop y_true y_pred rest
        (wAdd acc (wScale r.weight (meanTrailing v)))

/-- `LossWrapper.__call__`: iterate the registrations starting from the
Python float accumulator `loss = 0.0`. -/
def LossWrapper_call (regs : List LossRegistration) (y_true y_pred : T4) :
    Except FaceswapError WVal :=
  LossWrapper_loop y_true y_pred regs (WVal.scal 0)

/-- A registration whose callable never raises. -/
def totalReg (r : LossRegistration) : Prop :=
  ∀ a b, ∃ v, r.func a b = Except.ok v

/-! ## Claim-side (specification) definitions -/

/-- Claimed per-sample DSSIM (claim C1): the mean over channels of
`(1 - ssim) / 2`, one value per batch sample. -/
def DSSIM_claimed (st : SSIMState) (C S : ℕ) (yt yp : Img) : ℕ → ℚ :=
  fun n =>
    (Finset.sum (Finset.range C) (fun c =>
      (1 - (get_ssim st S yt yp).1 n c) / 2)) / (C : ℚ)

/-- Claimed single-scale MS-SSIM loss (claim C5): the mean of
`1 - ssim ^ w` with the plain (unclamped) SSIM of the input pair. -/
def MSSIM_single_claimed (kpow : ℚ → ℚ → ℚ) (st : SSIMState)
    (N C S : ℕ) (w : ℚ) (yt yp : Img) : ℚ :=
  (Finset.sum (Finset.range N) (fun n =>
    Finset.sum (Finset.range C) (fun c =>
      1 - kpow ((get_ssim st S yt yp).1 n c) w))) / ((N : ℚ) * (C : ℚ))

/-- Claimed GeneralizedLoss value (claim C3): elementwise
`(|2 - alpha| / alpha) * (((d / beta)^2 / |2 - alpha| + 1)^(alpha / 2) - 1)`
for `d = y_pred - y_true`, averaged over the last axis, times `beta`. -/
def generalized_loss_claimed (alpha beta : ℚ) (kpow : ℚ → ℚ → ℚ)
    (y_true y_pred : T4) : T3 :=
  (zipSub4 y_pred y_true).map (fun a => a.map (fun b => b.map (fun cs =>
    qmean (cs.map (fun d =>
      (|2 - alpha| / alpha) *
        (kpow ((d / beta) ^ 2 / |2 - alpha| + 1) (alpha / 2) - 1))) * beta)))

/-- Claimed 3-channel mask (claim C6): the named channel of the
reference tensor broadcast to 3 channels, used as-is. -/
def mask_claimed (y_true : T4) (mask_channel : ℤ) : T4 :=
  y_true.map (fun a => a.map (fun b => b.map (fun cs =>
    let v := cs.getD mask_channel.toNat 0
    [v, v, v])))

/-- Every entry of a rank-3 tensor is zero. -/
def allZero3 (t : T3) : Prop := ∀ a ∈ t, ∀ b ∈ a, ∀ x ∈ b, x = (0 : ℚ)

/-- Every entry of a rank-4 tensor is zero. -/
def allZero4 (t : T4) : Prop :=
  ∀ a ∈ t, ∀ b ∈ a, ∀ c ∈ b, ∀ x ∈ c, x = (0 : ℚ)

/-! ## Concrete instances used by witnesses and counterexamples -/

/-- A concrete backend exponential (any positive function works for the
hypotheses the theorems take). -/
def expf1 : ℚ → ℚ := fun _ => 1

/-- A concrete backend power satisfying `kpow 1 e = 1` and
`kpow x 2 = x * x`. -/
def kpowW : ℚ → ℚ → ℚ :=
  fun b e => if e = 2 then b * b else if b = 1 then 1 else b

/-- DSSIM component with filter size 1 (kernel `[[1]]`), defaults
otherwise. -/
def stFS1 : SSIMState :=
  DSSIMObjective_init expf1 (1 / 100) (3 / 100) 1 (3 / 2) 1 [1]

/-- MS-SSIM component with filter size 2 (uniform 2x2 kernel) and a
single power factor. -/
def stFS2 : SSIMState :=
  DSSIMObjective_init expf1 (1 / 100) (3 / 100) 2 (3 / 2) 1 [1]

/-- Two-sample, single-pixel, single-channel batch: sample 0 is 1/2,
sample 1 is 1. -/
def imgA : Img := fun n _ _ _ => if n = 0 then 1 / 2 else 1

/-- Two-sample, single-pixel, single-channel batch: sample 0 is 1/2,
sample 1 is 0. -/
def imgB : Img := fun n _ _ _ => if n = 0 then 1 / 2 else 0

/-- 2x2 checkerboard: 0 on the even diagonal, 1 off it. -/
def imgCheck0 : Img := fun _ i j _ => if (i + j) % 2 = 0 then 0 else 1

/-- 2x2 checkerboard: 1 on the even diagonal, 0 off it. -/
def imgCheck1 : Img := fun _ i j _ => if (i + j) % 2 = 0 then 1 else 0

/-- Constant half-intensity image. -/
def imgHalf : Img := fun _ _ _ _ => 1 / 2

/-- A 1x1x1x1 list tensor holding 1/2. -/
def t4Half : T4 := [[[[1 / 2]]]]

/-- A 1x1x1x1 list tensor holding 1. -/
def t4One : T4 := [[[[1]]]]

/-- A 1x1x1x1 list tensor holding 0. -/
def t4Zero : T4 := [[[[0]]]]

/-- A 1x1x1x4 reference tensor (3 colour channels and a mask channel). -/
def t4Mask : T4 := [[[[1 / 2, 1 / 4, 3 / 4, 1]]]]

/-- A 1x1x1x4 prediction tensor. -/
def t4Pred : T4 := [[[[1 / 8, 1 / 3, 2 / 3, 0]]]]

/-! ## Helper lemmas: weighted-mean inequality and SSIM at equal inputs -/

/-- Jensen / Cauchy-Schwarz for a nonnegative weight vector summing to
one: the square of the weighted mean is at most the weighted mean of
the squares. -/
theorem weighted_sq_le {ι : Type} (s : Finset ι) (w v : ι → ℚ)
    (hw : ∀ i ∈ s, 0 ≤ w i) (h1 : Finset.sum s w = 1) :
    (Finset.sum s (fun i => w i * v i)) ^ 2 ≤
      Finset.sum s (fun i => w i * v i ^ 2) := by
  set m := Finset.sum s (fun i => w i * v i) with hm
  have h0 : 0 ≤ Finset.sum s (fun i => w i * (v i - m) ^ 2) :=
    Finset.sum_nonneg (fun i hi => mul_nonneg (hw i hi) (sq_nonneg _))
  have hcong : Finset.sum s (fun i => w i * (v i - m) ^ 2)
      = Finset.sum s (fun i =>
          w i * v i ^ 2 - 2 * m * (w i * v i) + m ^ 2 * w i) :=
    Finset.sum_congr rfl (fun i _ => by ring)
  have hexp : Finset.sum s (fun i => w i * (v i - m) ^ 2)
      = Finset.sum s (fun i => w i * v i ^ 2) - 2 * m * m + m ^ 2 := by
    rw [hcong, Finset.sum_add_distrib, Finset.sum_sub_distrib,
      ← Finset.mul_sum, ← Finset.mul_sum, ← hm, h1, mul_one]
  nlinarith [h0, hexp]

/-- The depthwise convolution distributes over elementwise image sums. -/
theorem conv_imgAdd (ker : List (List ℚ)) (fs : ℕ) (a b : Img)
    (n i j c : ℕ) :
    depthwise_conv2d ker fs (imgAdd a b) n i j c =
      depthwise_conv2d ker fs a n i j c + depthwise_conv2d ker fs b n i j c := by
  unfold depthwise_conv2d imgAdd
  rw [← Finset.sum_add_distrib]
  refine Finset.sum_congr rfl (fun p _ => ?_)
  rw [← Finset.sum_add_distrib]
  exact Finset.sum_congr rfl (fun q _ => by ring)

/-- With a wellformed kernel, the squared windowed mean is at most the
windowed mean of the squares. -/
theorem conv_sq_le (ker : List (List ℚ)) (fs : ℕ)
    (hk : kernelOK ker fs) (y : Img) (n i j c : ℕ) :
    (depthwise_conv2d ker fs y n i j c) ^ 2 ≤
      depthwise_conv2d ker fs (imgMul y y) n i j c := by
  have hrw1 : depthwise_conv2d ker fs y n i j c
      = Finset.sum ((Finset.range fs) ×ˢ (Finset.range fs))
          (fun x => kernelAt ker x.1 x.2 * y n (i + x.1) (j + x.2) c) := by
    rw [Finset.sum_product]
    rfl
  have hrw2 : depthwise_conv2d ker fs (imgMul y y) n i j c
      = Finset.sum ((Finset.range fs) ×ˢ (Finset.range fs))
          (fun x => kernelAt ker x.1 x.2 * (y n (i + x.1) (j + x.2) c) ^ 2) := by
    rw [Finset.sum_product]
    unfold depthwise_conv2d imgMul
    refine Finset.sum_congr rfl (fun p _ => ?_)
    exact Finset.sum_congr rfl (fun q _ => by ring)
  rw [hrw1, hrw2]
  refine weighted_sq_le _ _ _ (fun x hx => ?_) ?_
  · rcases Finset.mem_product.mp hx with ⟨h1, h2⟩
    exact hk.1 x.1 (Finset.mem_range.mp h1) x.2 (Finset.mem_range.mp h2)
  · rw [Finset.sum_product]
    exact hk.2

/-- At equal inputs the luminance term is exactly one. -/
theorem luminance_self (st : SSIMState) (hc1 : 0 < st.c1) (y : Img)
    (n i j c : ℕ) : luminance st y y n i j c = 1 := by
  unfold luminance num_lum den_lum
  have heq : mu st y n i j c * mu st y n i j c * 2 + st.c1
      = (mu st y n i j c) ^ 2 + (mu st y n i j c) ^ 2 + st.c1 := by ring
  rw [heq]
  refine div_self (ne_of_gt ?_)
  nlinarith [sq_nonneg (mu st y n i j c), hc1]

/-- At equal inputs the contrast term is exactly one: numerator and
denominator agree and are at least `c2 > 0`. -/
theorem contrastMap_self (st : SSIMState)
    (hk : kernelOK st.kernel st.filter_size) (hc2 : 0 < st.c2) (y : Img)
    (n i j c : ℕ) : contrastMap st y y n i j c = 1 := by
  unfold contrastMap num_con den_con num_lum den_lum
  have hadd := conv_imgAdd st.kernel st.filter_size (imgSq y) (imgSq y) n i j c
  have hsq := conv_sq_le st.kernel st.filter_size hk y n i j c
  rw [hadd]
  have hmu : mu st y n i j c = depthwise_conv2d st.kernel st.filter_size y n i j c := rfl
  have hisq : depthwise_conv2d st.kernel st.filter_size (imgSq y) n i j c
      = depthwise_conv2d st.kernel st.filter_size (imgMul y y) n i j c := rfl
  rw [hisq, hmu]
  set q := depthwise_conv2d st.kernel st.filter_size (imgMul y y) n i j c with hq
  set m := depthwise_conv2d st.kernel st.filter_size y n i j c with hmm
  have heq : q * 2 - m * m * 2 + st.c2 = q + q - (m ^ 2 + m ^ 2) + st.c2 := by ring
  rw [heq]
  refine div_self (ne_of_gt ?_)
  nlinarith [hsq, hc2]

/-- At equal inputs the SSIM map is identically one. -/
theorem ssimMap_self (st : SSIMState)
    (hk : kernelOK st.kernel st.filter_size) (hc1 : 0 < st.c1)
    (hc2 : 0 < st.c2) (y : Img) (n i j c : ℕ) :
    ssimMap st y y n i j c = 1 := by
  unfold ssimMap
  rw [luminance_self st hc1 y n i j c, contrastMap_self st hk hc2 y n i j c,
    mul_one]

/-- The spatial mean of an identically-one map over a nonempty window is
one. -/
theorem spatialMean_one (oH oW : ℕ) (x : Img) (n c : ℕ)
    (hx : ∀ i j, x n i j c = 1) (h0 : 0 < oH) (h0w : 0 < oW) :
    spatialMean oH oW x n c = 1 := by
  unfold spatialMean
  rw [Finset.sum_congr rfl (fun i _ =>
    Finset.sum_congr rfl (fun j _ => hx i j))]
  simp only [Finset.sum_const, Finset.card_range, nsmul_eq_mul, mul_one]
  refine div_self (ne_of_gt ?_)
  have hH : (0 : ℚ) < (oH : ℚ) := by exact_mod_cast h0
  have hW : (0 : ℚ) < (oW : ℚ) := by exact_mod_cast h0w
  exact mul_pos hH hW

/-- `_get_ssim` at equal inputs: both returned matrices are identically
one. -/
theorem get_ssim_self (st : SSIMState)
    (hk : kernelOK st.kernel st.filter_size) (hc1 : 0 < st.c1)
    (hc2 : 0 < st.c2) (S : ℕ) (y : Img) :
    (∀ n c, (get_ssim st S y y).1 n c = 1) ∧
      (∀ n c, (get_ssim st S y y).2 n c = 1) := by
  constructor
  · intro n c
    exact spatialMean_one _ _ _ n c
      (fun i j => ssimMap_self st hk hc1 hc2 y n i j c)
      (Nat.succ_pos _) (Nat.succ_pos _)
  · intro n c
    exact spatialMean_one _ _ _ n c
      (fun i j => contrastMap_self st hk hc2 y n i j c)
      (Nat.succ_pos _) (Nat.succ_pos _)

/-- Looking up a stored kernel entry inside its bounds gives the softmax
entry. -/
theorem kernelAt_getKernel (expf : ℚ → ℚ) (fs : ℕ) (sigma : ℚ)
    (p q : ℕ) (hp : p < fs) (hq : q < fs) :
    kernelAt (getKernel expf fs sigma) p q = kernelEntry expf fs sigma p q := by
  have hrow : (getKernel expf fs sigma).getD p []
      = (List.range fs).map (fun j => kernelEntry expf fs sigma p j) := by
    unfold getKernel
    rw [List.getD_eq_getElem?_getD, List.getElem?_map, List.getElem?_range hp]
    rfl
  unfold kernelAt
  rw [hrow, List.getD_eq_getElem?_getD, List.getElem?_map,
    List.getElem?_range hq]
  rfl

/-- The kernel built by `_get_kernel` is wellformed whenever the backend
exponential is positive and the filter size is at least one. -/
theorem getKernel_OK (expf : ℚ → ℚ) (hpos : ∀ x, 0 < expf x) (fs : ℕ)
    (hfs : 1 ≤ fs) (sigma : ℚ) : kernelOK (getKernel expf fs sigma) fs := by
  have hne : (Finset.range fs).Nonempty :=
    Finset.nonempty_range_iff.mpr (by omega)
  have hden : 0 < ksoftmaxDen expf fs sigma := by
    unfold ksoftmaxDen
    exact Finset.sum_pos
      (fun p _ => Finset.sum_pos (fun q _ => hpos _) hne) hne
  constructor
  · intro p hp q hq
    rw [kernelAt_getKernel expf fs sigma p q hp hq]
    exact div_nonneg (le_of_lt (hpos _)) (le_of_lt hden)
  · rw [Finset.sum_congr rfl (fun p hp => Finset.sum_congr rfl (fun q hq =>
      kernelAt_getKernel expf fs sigma p q
        (Finset.mem_range.mp hp) (Finset.mem_range.mp hq)))]
    unfold kernelEntry
    rw [Finset.sum_congr rfl (fun p _ => (Finset.sum_div _ _ _).symm),
      ← Finset.sum_div]
    exact div_self (ne_of_gt hden)

/-- `_get_smallest_size` is iterated floor halving. -/
theorem get_smallest_size_iterate :
    ∀ (k s : ℕ), get_smallest_size s k = (fun x => x / 2)^[k] s := by
  intro k
  induction k with
  | zero => intro s; rfl
  | succ k ih =>
    intro s
    rw [get_smallest_size, ih (s / 2), Function.iterate_succ_apply]

/-- `_get_smallest_size` equals division by the corresponding power of
two. -/
theorem get_smallest_size_pow :
    ∀ (k s : ℕ), get_smallest_size s k = s / 2 ^ k := by
  intro k
  induction k with
  | zero => intro s; simp [get_smallest_size]
  | succ k ih =>
    intro s
    rw [get_smallest_size, ih (s / 2), Nat.div_div_eq_div_mul, pow_succ']

/-- The auto-shrink never touches the power factors. -/
theorem update_filter_pf (expf : ℚ → ℚ) (st : SSIMState) (S : ℕ) :
    (update_filter expf st S).power_factors = st.power_factors := by
  unfold update_filter
  split <;> rfl

/-- The auto-shrink never touches `c1`. -/
theorem update_filter_c1 (expf : ℚ → ℚ) (st : SSIMState) (S : ℕ) :
    (update_filter expf st S).c1 = st.c1 := by
  unfold update_filter
  split <;> rfl

/-- The auto-shrink never touches `c2`. -/
theorem update_filter_c2 (expf : ℚ → ℚ) (st : SSIMState) (S : ℕ) :
    (update_filter expf st S).c2 = st.c2 := by
  unfold update_filter
  split <;> rfl

/-- After the auto-shrink the stored kernel is wellformed for the stored
filter size, provided the incoming kernel was and the smallest scale is
at least one. -/
theorem update_filter_kernelOK (expf : ℚ → ℚ) (st : SSIMState) (S : ℕ)
    (hk : kernelOK st.kernel st.filter_size) (hexp : ∀ x, 0 < expf x)
    (hsm : 1 ≤ get_smallest_size S (st.power_factors.length - 1)) :
    kernelOK (update_filter expf st S).kernel
      (update_filter expf st S).filter_size := by
  unfold update_filter
  split
  · exact getKernel_OK expf hexp _ hsm st.filter_sigma
  · exact hk

/-- Every matrix collected by the MS-SSIM scale loop at equal inputs is
identically one. -/
theorem ms_components_self (st : SSIMState)
    (hk : kernelOK st.kernel st.filter_size) (hc1 : 0 < st.c1)
    (hc2 : 0 < st.c2) :
    ∀ (k S : ℕ) (y : Img), ∀ m ∈ ms_components st k S y y,
      ∀ n c, m n c = 1 := by
  intro k
  induction k with
  | zero =>
    intro S y m hm
    simp [ms_components] at hm
  | succ k ih =>
    intro S y m hm n c
    cases k with
    | zero =>
      simp only [ms_components, List.mem_singleton] at hm
      rw [hm]
      exact (get_ssim_self st hk hc1 hc2 S y).1 n c
    | succ k2 =>
      rw [ms_components] at hm
      rcases List.mem_cons.mp hm with h | h
      · rw [h]
        exact (get_ssim_self st hk hc1 hc2 S y).2 n c
      · exact ih (half_size S) (shrink_one S y) m h n c

/-- The scale loop produces exactly one matrix per scale. -/
theorem ms_components_length (st : SSIMState) :
    ∀ (k S : ℕ) (yt yp : Img),
      (ms_components st k S yt yp).length = k := by
  intro k
  induction k with
  | zero => intro S yt yp; rfl
  | succ k ih =>
    intro S yt yp
    cases k with
    | zero => rfl
    | succ k2 =>
      rw [ms_components, List.length_cons,
        ih (half_size S) (shrink_one S yt) (shrink_one S yp)]

/-- Folding multiplication over a list of ones leaves the accumulator. -/
theorem foldl_mul_ones :
    ∀ (l : List ℚ), (∀ x ∈ l, x = 1) →
      ∀ a : ℚ, l.foldl (fun u v => u * v) a = a := by
  intro l
  induction l with
  | nil => intro _ a; rfl
  | cons x xs ih =>
    intro h a
    have hx : x = 1 := h x (List.mem_cons_self x xs)
    rw [List.foldl_cons, hx, mul_one]
    exact ih (fun z hz => h z (List.mem_cons_of_mem x hz)) a

/-- The sequential scale product of a nonempty all-ones list is one. -/
theorem prod_scales_ones (l : List ℚ) (hne : l ≠ [])
    (h : ∀ x ∈ l, x = 1) : prod_scales l = 1 := by
  cases l with
  | nil => exact absurd rfl hne
  | cons x xs =>
    have hx : x = 1 := h x (List.mem_cons_self x xs)
    rw [prod_scales, foldl_mul_ones xs
      (fun z hz => h z (List.mem_cons_of_mem x hz)) x, hx]

/-- Entries of the relu-power zip over all-one matrices are one, for any
backend power with `kpow 1 e = 1`. -/
theorem zip_relu_pow_ones (kpow : ℚ → ℚ → ℚ) (hp1 : ∀ e, kpow 1 e = 1)
    (n c : ℕ) :
    ∀ (ms : List (ℕ → ℕ → ℚ)) (ws : List ℚ),
      (∀ m ∈ ms, m n c = 1) →
      ∀ x ∈ List.zipWith (fun m w => kpow (krelu (m n c)) w) ms ws, x = 1 := by
  intro ms
  induction ms with
  | nil => intro ws _ x hx; simp at hx
  | cons m ms ih =>
    intro ws hall x hx
    cases ws with
    | nil => simp at hx
    | cons w ws =>
      rw [List.zipWith_cons_cons] at hx
      rcases List.mem_cons.mp hx with h | h
      · rw [h, hall m (List.mem_cons_self m ms)]
        have : krelu 1 = 1 := by norm_num [krelu]
        rw [this, hp1 w]
      · exact ih ws (fun z hz => hall z (List.mem_cons_of_mem m hz)) x h

/-- The multiscale score at equal inputs is identically one. -/
theorem ms_ssim_val_self (kpow : ℚ → ℚ → ℚ) (st : SSIMState)
    (hk : kernelOK st.kernel st.filter_size) (hc1 : 0 < st.c1)
    (hc2 : 0 < st.c2) (hp1 : ∀ e, kpow 1 e = 1)
    (hpf : st.power_factors ≠ []) (S : ℕ) (y : Img) (n c : ℕ) :
    ms_ssim_val kpow st S y y n c = 1 := by
  unfold ms_ssim_val
  refine prod_scales_ones _ ?_ ?_
  · have hlen : (List.zipWith (fun m w => kpow (krelu (m n c)) w)
        (ms_components st st.power_factors.length S y y)
        st.power_factors).length = st.power_factors.length := by
      rw [List.length_zipWith, ms_components_length st _ S y y, min_self]
    intro hnil
    rw [hnil] at hlen
    exact hpf (List.length_eq_zero.mp hlen.symm)
  · exact zip_relu_pow_ones kpow hp1 n c _ _
      (fun m hm => ms_components_self st hk hc1 hc2 _ S y m hm n c)

/-! ## Helper lemmas: zero propagation through the list-based losses -/

/-- Subtracting a scalar list from itself gives zeros. -/
theorem zipSub_self_zero1 :
    ∀ (l : List ℚ), ∀ x ∈ List.zipWith (fun p q => p - q) l l, x = 0 := by
  intro l
  induction l with
  | nil => intro x hx; simp at hx
  | cons a l ih =>
    intro x hx
    rw [List.zipWith_cons_cons] at hx
    rcases List.mem_cons.mp hx with h | h
    · rw [h]; ring
    · exact ih x h

/-- Subtracting a rank-2 block from itself gives zeros. -/
theorem zipSub_self_zero2 :
    ∀ (u : List (List ℚ)),
      ∀ b ∈ List.zipWith (fun r s => List.zipWith (fun p q => p - q) r s) u u,
        ∀ x ∈ b, x = 0 := by
  intro u
  induction u with
  | nil => intro b hb; simp at hb
  | cons r u ih =>
    intro b hb x hx
    rw [List.zipWith_cons_cons] at hb
    rcases List.mem_cons.mp hb with h | h
    · subst h
      exact zipSub_self_zero1 r x hx
    · exact ih b h x hx

/-- Subtracting a rank-3 block from itself gives zeros. -/
theorem zipSub_self_zero3 :
    ∀ (s : List (List (List ℚ))),
      ∀ c ∈ List.zipWith (fun u v =>
          List.zipWith (fun r w => List.zipWith (fun p q => p - q) r w) u v) s s,
        ∀ b ∈ c, ∀ x ∈ b, x = 0 := by
  intro s
  induction s with
  | nil => intro c hc; simp at hc
  | cons u s ih =>
    intro c hc b hb x hx
    rw [List.zipWith_cons_cons] at hc
    rcases List.mem_cons.mp hc with h | h
    · subst h
      exact zipSub_self_zero2 u b hb x hx
    · exact ih c h b hb x hx

/-- Entries of `zipSub4 t t` are all zero. -/
theorem zipSub4_self_zero (t : T4) : allZero4 (zipSub4 t t) := by
  intro a ha b hb c hc x hx
  unfold zipSub4 at ha
  induction t with
  | nil => simp at ha
  | cons s rest ih =>
    rw [List.zipWith_cons_cons] at ha
    rcases List.mem_cons.mp ha with h | h
    · subst h
      exact zipSub_self_zero3 s b hb c hc x hx
    · exact ih h

/-- Entries of `map4 f t` are images of entries of `t`. -/
theorem mem_map4 (f : ℚ → ℚ) (t : T4) :
    ∀ a ∈ map4 f t, ∀ b ∈ a, ∀ c ∈ b, ∀ x ∈ c,
      ∃ a2 ∈ t, ∃ b2 ∈ a2, ∃ c2 ∈ b2, ∃ y ∈ c2, x = f y := by
  intro a ha b hb c hc x hx
  unfold map4 at ha
  obtain ⟨a2, ha2, rfl⟩ := List.mem_map.mp ha
  obtain ⟨b2, hb2, rfl⟩ := List.mem_map.mp hb
  obtain ⟨c2, hc2, rfl⟩ := List.mem_map.mp hc
  obtain ⟨y, hy, rfl⟩ := List.mem_map.mp hx
  exact ⟨a2, ha2, b2, hb2, c2, hc2, y, hy, rfl⟩

/-- `map4` of a zero-preserving function keeps an all-zero tensor
all-zero. -/
theorem map4_allZero (f : ℚ → ℚ) (hf : f 0 = 0) (t : T4)
    (ht : allZero4 t) : allZero4 (map4 f t) := by
  intro a ha b hb c hc x hx
  obtain ⟨a2, ha2, b2, hb2, c2, hc2, y, hy, rfl⟩ :=
    mem_map4 f t a ha b hb c hc x hx
  rw [ht a2 ha2 b2 hb2 c2 hc2 y hy, hf]

/-- The sum of an all-zero scalar list is zero. -/
theorem qsum_zero (l : List ℚ) (h : ∀ x ∈ l, x = 0) : qsum l = 0 := by
  induction l with
  | nil => rfl
  | cons a l ih =>
    unfold qsum
    rw [List.foldr_cons, h a (List.mem_cons_self a l)]
    have := ih (fun z hz => h z (List.mem_cons_of_mem a hz))
    unfold qsum at this
    rw [this, add_zero]

/-- The mean of an all-zero scalar list is zero. -/
theorem qmean_zero (l : List ℚ) (h : ∀ x ∈ l, x = 0) : qmean l = 0 := by
  unfold qmean
  rw [qsum_zero l h, zero_div]

/-- The reduction pattern shared by `GeneralizedLoss.__call__`
(elementwise map, channel mean, scale by `beta`) maps an all-zero
tensor to an all-zero result, for any zero-preserving elementwise
function. -/
theorem reduce_allZero (f : ℚ → ℚ) (hf : f 0 = 0) (beta : ℚ) (t : T4)
    (ht : allZero4 t) :
    allZero3 (map3 (fun x => x * beta) (mean_last (map4 f t))) := by
  intro a ha b hb x hx
  unfold map3 at ha
  obtain ⟨a2, ha2, rfl⟩ := List.mem_map.mp ha
  obtain ⟨b2, hb2, rfl⟩ := List.mem_map.mp hb
  obtain ⟨y, hy, rfl⟩ := List.mem_map.mp hx
  unfold mean_last at ha2
  obtain ⟨a3, ha3, rfl⟩ := List.mem_map.mp ha2
  obtain ⟨b3, hb3, rfl⟩ := List.mem_map.mp hb2
  obtain ⟨c3, hc3, rfl⟩ := List.mem_map.mp hy
  have hz : ∀ z ∈ c3, z = 0 := by
    intro z hz
    have hm := map4_allZero f hf t ht
    exact hm a3 ha3 b3 hb3 c3 hc3 z hz
  rw [qmean_zero c3 hz, zero_mul]

/-- The elementwise generalized-loss body vanishes at zero difference,
given the backend power facts. -/
theorem generalized_elem_zero (alpha beta : ℚ) (kpow : ℚ → ℚ → ℚ)
    (hp1 : ∀ e, kpow 1 e = 1) (hp2 : ∀ x, kpow x 2 = x * x) :
    generalized_elem alpha beta kpow 0 = 0 := by
  unfold generalized_elem
  rw [zero_div, hp2 0, mul_zero, zero_div, zero_add, hp1, sub_self, mul_zero]

/-- `GeneralizedLoss` at an identical pair is identically zero. -/
theorem generalized_loss_self (alpha beta : ℚ) (kpow : ℚ → ℚ → ℚ)
    (hp1 : ∀ e, kpow 1 e = 1) (hp2 : ∀ x, kpow x 2 = x * x) (t : T4) :
    allZero3 (generalized_loss alpha beta kpow t t) := by
  unfold generalized_loss
  exact reduce_allZero _ (generalized_elem_zero alpha beta kpow hp1 hp2)
    beta _ (zipSub4_self_zero t)

/-- `zipWith max` of two all-zero vectors is all-zero. -/
theorem vecMax_zero :
    ∀ (a b : List ℚ), (∀ x ∈ a, x = 0) → (∀ x ∈ b, x = 0) →
      ∀ x ∈ vecMax a b, x = 0 := by
  intro a
  induction a with
  | nil => intro b _ _ x hx; simp [vecMax] at hx
  | cons p a ih =>
    intro b ha hb x hx
    cases b with
    | nil => simp [vecMax] at hx
    | cons q b =>
      unfold vecMax at hx
      rw [List.zipWith_cons_cons] at hx
      rcases List.mem_cons.mp hx with h | h
      · rw [h, ha p (List.mem_cons_self p a), hb q (List.mem_cons_self q b)]
        simp
      · exact ih b (fun z hz => ha z (List.mem_cons_of_mem p hz))
          (fun z hz => hb z (List.mem_cons_of_mem q hz)) x h

/-- Folding `vecMax` over all-zero vectors keeps all entries zero. -/
theorem foldl_vecMax_zero :
    ∀ (vs : List (List ℚ)) (v : List ℚ),
      (∀ x ∈ v, x = 0) → (∀ u ∈ vs, ∀ x ∈ u, x = 0) →
      ∀ x ∈ vs.foldl vecMax v, x = 0 := by
  intro vs
  induction vs with
  | nil => intro v hv _ x hx; exact hv x hx
  | cons u vs ih =>
    intro v hv hall x hx
    rw [List.foldl_cons] at hx
    exact ih (vecMax v u)
      (vecMax_zero v u hv (hall u (List.mem_cons_self u vs)))
      (fun w hw => hall w (List.mem_cons_of_mem u hw)) x hx

/-- The spatial keepdims maximum of an all-zero sample is all-zero. -/
theorem cellMax_zero (s : List (List (List ℚ)))
    (hs : ∀ b ∈ s, ∀ c ∈ b, ∀ x ∈ c, x = 0) :
    ∀ x ∈ cellMax s, x = 0 := by
  unfold cellMax
  have hflat : ∀ u ∈ s.flatten, ∀ x ∈ u, x = 0 := by
    intro u hu x hx
    obtain ⟨b, hb, hub⟩ := List.mem_flatten.mp hu
    exact hs b hb u hub x hx
  cases hsf : s.flatten with
  | nil => intro x hx; simp at hx
  | cons v vs =>
    intro x hx
    have hv : ∀ x ∈ v, x = 0 := by
      intro z hz
      exact hflat v (by rw [hsf]; exact List.mem_cons_self v vs) z hz
    have hvs : ∀ u ∈ vs, ∀ x ∈ u, x = 0 := by
      intro u hu z hz
      exact hflat u (by rw [hsf]; exact List.mem_cons_of_mem v hu) z hz
    exact foldl_vecMax_zero vs v hv hvs x hx

/-- `LInfNorm` at an identical pair is identically zero. -/
theorem linf_norm_self (t : T4) : allZero3 (linf_norm t t) := by
  unfold linf_norm
  intro a ha b hb x hx
  obtain ⟨s, hs, rfl⟩ := List.mem_map.mp ha
  have hb2 : b = [qmean (cellMax s)] := List.mem_singleton.mp hb
  subst hb2
  have hx2 : x = qmean (cellMax s) := List.mem_singleton.mp hx
  subst hx2
  have hsz : ∀ u ∈ s, ∀ c ∈ u, ∀ z ∈ c, z = 0 := by
    intro u hu c hc z hz
    have hall := map4_allZero (fun v => |v|) (by simp) _ (zipSub4_self_zero t)
    exact hall s hs u hu c hc z hz
  exact qmean_zero _ (cellMax_zero s hsz)

/-- Adding two all-zero scalar lists gives zeros. -/
theorem zipAdd_zero1 :
    ∀ (l m : List ℚ), (∀ x ∈ l, x = 0) → (∀ x ∈ m, x = 0) →
      ∀ x ∈ List.zipWith (fun p q => p + q) l m, x = 0 := by
  intro l
  induction l with
  | nil => intro m _ _ x hx; simp at hx
  | cons p l ih =>
    intro m hl hm x hx
    cases m with
    | nil => simp at hx
    | cons q m =>
      rw [List.zipWith_cons_cons] at hx
      rcases List.mem_cons.mp hx with h | h
      · rw [h, hl p (List.mem_cons_self p l), hm q (List.mem_cons_self q m),
          add_zero]
      · exact ih m (fun z hz => hl z (List.mem_cons_of_mem p hz))
          (fun z hz => hm z (List.mem_cons_of_mem q hz)) x h

/-- Adding two all-zero rank-2 blocks gives zeros. -/
theorem zipAdd_zero2 :
    ∀ (u v : List (List ℚ)),
      (∀ r ∈ u, ∀ x ∈ r, x = 0) → (∀ r ∈ v, ∀ x ∈ r, x = 0) →
      ∀ b ∈ List.zipWith (fun r s => List.zipWith (fun p q => p + q) r s) u v,
        ∀ x ∈ b, x = 0 := by
  intro u
  induction u with
  | nil => intro v _ _ b hb; simp at hb
  | cons r u ih =>
    intro v hu hv b hb x hx
    cases v with
    | nil => simp at hb
    | cons s v =>
      rw [List.zipWith_cons_cons] at hb
      rcases List.mem_cons.mp hb with h | h
      · subst h
        exact zipAdd_zero1 r s (hu r (List.mem_cons_self r u))
          (hv s (List.mem_cons_self s v)) x hx
      · exact ih v (fun z hz => hu z (List.mem_cons_of_mem r hz))
          (fun z hz => hv z (List.mem_cons_of_mem s hz)) b h x hx

/-- `zipAdd3` of two all-zero rank-3 tensors is all-zero. -/
theorem zipAdd3_allZero :
    ∀ (a b : T3), allZero3 a → allZero3 b → allZero3 (zipAdd3 a b) := by
  intro a
  induction a with
  | nil =>
    intro b _ _ u hu
    unfold zipAdd3 at hu
    simp at hu
  | cons a0 arest ih =>
    intro b ha hb u hu v hv x hx
    cases b with
    | nil =>
      unfold zipAdd3 at hu
      simp at hu
    | cons b0 brest =>
      unfold zipAdd3 at hu
      rw [List.zipWith_cons_cons] at hu
      rcases List.mem_cons.mp hu with h | h
      · subst h
        exact zipAdd_zero2 a0 b0 (ha a0 (List.mem_cons_self a0 arest))
          (hb b0 (List.mem_cons_self b0 brest)) v hv x hx
      · exact ih brest (fun u2 hu2 => ha u2 (List.mem_cons_of_mem a0 hu2))
          (fun u2 hu2 => hb u2 (List.mem_cons_of_mem b0 hu2)) u h v hv x hx

/-- `map3` with a zero-preserving function keeps an all-zero rank-3
tensor all-zero. -/
theorem map3_allZero (f : ℚ → ℚ) (hf : f 0 = 0) (t : T3)
    (ht : allZero3 t) : allZero3 (map3 f t) := by
  intro a ha b hb x hx
  unfold map3 at ha
  obtain ⟨a2, ha2, rfl⟩ := List.mem_map.mp ha
  obtain ⟨b2, hb2, rfl⟩ := List.mem_map.mp hb
  obtain ⟨y, hy, rfl⟩ := List.mem_map.mp hx
  rw [ht a2 ha2 b2 hb2 y hy, hf]

/-- `GradientLoss` at an identical pair is identically zero. -/
theorem gradient_loss_self (kpow : ℚ → ℚ → ℚ)
    (hp1 : ∀ e, kpow 1 e = 1) (hp2 : ∀ x, kpow x 2 = x * x) (t : T4) :
    allZero3 (gradient_loss kpow t t) := by
  unfold gradient_loss
  have hgl : ∀ u : T4, allZero3
      (generalized_loss (19999 / 10000) (1 / 255) kpow u u) :=
    fun u => generalized_loss_self _ _ kpow hp1 hp2 u
  refine map3_allZero _ (by norm_num) _ ?_
  refine zipAdd3_allZero _ _ ?_ ?_
  · refine map3_allZero _ (by norm_num) _ ?_
    exact zipAdd3_allZero _ _ (hgl (diff_x t)) (hgl (diff_y t))
  · refine map3_allZero _ (by norm_num) _ ?_
    refine zipAdd3_allZero _ _ ?_ ?_
    · exact zipAdd3_allZero _ _ (hgl (diff_xx t)) (hgl (diff_yy t))
    · exact map3_allZero _ (by norm_num) _ (hgl (diff_xy t))

/-- If every registration before a GMSD registration succeeds, the
aggregator loop stops at the GMSD registration with its error. -/
theorem wrapper_aborts (w : ℚ) (mc : ℤ) (df : Bool)
    (post : List LossRegistration) (y_true y_pred : T4) :
    ∀ (pre : List LossRegistration) (acc : WVal),
      (∀ r ∈ pre, totalReg r) →
      LossWrapper_loop y_true y_pred
        (pre ++ { func := GMSDLoss_call, weight := w, mask_channel := mc,
                  is_dssim := df } :: post) acc
        = Except.error { msg := "GMSD Loss is not currently compatible with PlaidML. Please select a different Loss method." } := by
  intro pre
  induction pre with
  | nil =>
    intro acc _
    rw [List.nil_append]
    rfl
  | cons r rs ih =>
    intro acc hall
    rw [List.cons_append]
    simp only [LossWrapper_loop]
    obtain ⟨v, hv⟩ := hall r (List.mem_cons_self r rs)
      (apply_mask y_true y_pred r.mask_channel 1).1
      (if r.is_dssim then
        reshape4 (shape4 y_pred) (flatten4 (apply_mask y_true y_pred r.mask_channel 1).2)
       else (apply_mask y_true y_pred r.mask_channel 1).2)
    rw [hv]
    exact ih _ (fun z hz => hall z (List.mem_cons_of_mem r hz))

/-! ## Claim theorems -/

theorem C1_counterexample :
    DSSIM_call stFS1 2 1 1 imgA imgB ≠ DSSIM_claimed stFS1 1 1 imgA imgB 0 ∧
    DSSIM_call stFS1 2 1 1 imgA imgB ≠ DSSIM_claimed stFS1 1 1 imgA imgB 1 := by
  constructor <;>
  · norm_num [DSSIM_call, DSSIM_claimed, get_ssim, spatialMean, ssimMap,
      luminance, contrastMap, num_lum, den_lum, num_con, den_con, mu,
      depthwise_conv2d, imgMul, imgSq, imgAdd, kernelAt, stFS1,
      DSSIMObjective_init, getKernel, kernelEntry, ksoftmaxDen, kbowl, kquad,
      kcoord, expf1, imgA, imgB, Finset.sum_range_succ, Finset.sum_range_zero,
      List.range_succ, List.range_zero]

/-- C1 (amended): `_get_ssim` averages both the SSIM map and the contrast
map over the two spatial axes to per-sample per-channel values, and
`DSSIMObjective.__call__` returns the mean of `(1 - ssim) / 2` over
both the batch and channel axes — a single scalar for the whole batch,
not one value per sample. -/
theorem C1_dssim_full_mean (st : SSIMState) (N C S : ℕ) (yt yp : Img) :
    (get_ssim st S yt yp).1
      = spatialMean (S - st.filter_size + 1) (S - st.filter_size + 1)
          (ssimMap st yt yp) ∧
    (get_ssim st S yt yp).2
      = spatialMean (S - st.filter_size + 1) (S - st.filter_size + 1)
          (contrastMap st yt yp) ∧
    DSSIM_call st N C S yt yp
      = (Finset.sum (Finset.range N) (fun n =>
          Finset.sum (Finset.range C) (fun c =>
            1 - (get_ssim st S yt yp).1 n c))) /
        (2 * (N : ℚ) * (C : ℚ)) := by
  refine ⟨rfl, rfl, ?_⟩
  unfold DSSIM_call
  rw [Finset.sum_congr rfl (fun n _ => (Finset.sum_div _ _ (2 : ℚ)).symm),
    ← Finset.sum_div, div_div]
  congr 1
  ring

/-- C2: in `_get_ms_ssim`, the smallest scale is the input spatial size
floor-halved `len(power_factors) - 1` times; exactly when it is below
the configured filter size, the filter size is replaced by it and the
kernel rebuilt for the new size; every other component field is left
unchanged. -/
theorem C2_filter_autoshrink (expf : ℚ → ℚ) (st : SSIMState) (S : ℕ) :
    get_smallest_size S (st.power_factors.length - 1)
        = (fun x => x / 2)^[st.power_factors.length - 1] S ∧
    get_smallest_size S (st.power_factors.length - 1)
        = S / 2 ^ (st.power_factors.length - 1) ∧
    (update_filter expf st S).filter_size
        = (if get_smallest_size S (st.power_factors.length - 1) < st.filter_size
           then get_smallest_size S (st.power_factors.length - 1)
           else st.filter_size) ∧
    (update_filter expf st S).kernel
        = (if get_smallest_size S (st.power_factors.length - 1) < st.filter_size
           then getKernel expf (get_smallest_size S (st.power_factors.length - 1))
                  st.filter_sigma
           else st.kernel) ∧
    (update_filter expf st S).c1 = st.c1 ∧
    (update_filter expf st S).c2 = st.c2 ∧
    (update_filter expf st S).filter_sigma = st.filter_sigma ∧
    (update_filter expf st S).power_factors = st.power_factors := by
  refine ⟨get_smallest_size_iterate _ S, get_smallest_size_pow _ S, ?_, ?_,
    update_filter_c1 expf st S, update_filter_c2 expf st S, ?_,
    update_filter_pf expf st S⟩
  · unfold update_filter
    split <;> simp_all
  · unfold update_filter
    split <;> simp_all
  · unfold update_filter
    split <;> rfl

/-- C4: `GradientLoss._diff_xy` builds `xy_out1` and `xy_out2` from the
same (shadowed) variables and subtracts them, so for every input it
returns the all-zero tensor. -/
theorem C4_diff_xy_zero (img : T4) : allZero4 (diff_xy img) := by
  unfold diff_xy
  exact map4_allZero _ (by norm_num) _ (zipSub4_self_zero _)

/-- C10: a `LossWrapper` with no registered losses returns the plain
scalar accumulator `0.0` unchanged — not a per-sample tensor — for
every pair of inputs, reading neither tensor. -/
theorem C10_empty_wrapper (y_true y_pred : T4) :
    LossWrapper_call [] y_true y_pred = Except.ok (WVal.scal 0) := rfl

/-- C3: for parameters `alpha` not in {0, 2} and `beta` not zero (and a
backend power squaring correctly), `GeneralizedLoss.__call__` returns
exactly the claimed formula: elementwise
`(|2 - alpha| / alpha) * (((d / beta)^2 / |2 - alpha| + 1)^(alpha / 2) - 1)`
for `d = y_pred - y_true`, averaged over the channel axis and then
multiplied by `beta`. -/
theorem C3_generalized (alpha beta : ℚ) (kpow : ℚ → ℚ → ℚ) (yt yp : T4)
    (h0 : alpha ≠ 0) (h2 : alpha ≠ 2) (hb : beta ≠ 0)
    (hk2 : ∀ x, kpow x 2 = x * x) :
    GeneralizedLoss_call alpha beta kpow yt yp
      = Except.ok (generalized_loss_claimed alpha beta kpow yt yp) := by
  unfold GeneralizedLoss_call
  congr 1
  have hfun : generalized_elem alpha beta kpow
      = fun d => (|2 - alpha| / alpha) *
          (kpow ((d / beta) ^ 2 / |2 - alpha| + 1) (alpha / 2) - 1) := by
    funext d
    unfold generalized_elem
    rw [hk2, ← pow_two]
  unfold generalized_loss generalized_loss_claimed map3 mean_last map4
  rw [hfun]
  rw [List.map_map, List.map_map]
  refine List.map_congr_left (fun a _ => ?_)
  simp only [Function.comp_apply]
  rw [List.map_map, List.map_map]
  refine List.map_congr_left (fun b _ => ?_)
  simp only [Function.comp_apply]
  rw [List.map_map, List.map_map]
  refine List.map_congr_left (fun cs _ => ?_)
  simp only [Function.comp_apply]

/-- Witness for C3 at `alpha = 1`, `beta = 1` on concrete one-pixel
tensors. -/
theorem C3_witness :
    GeneralizedLoss_call 1 1 kpowW t4Zero t4One
      = Except.ok (generalized_loss_claimed 1 1 kpowW t4Zero t4One) :=
  C3_generalized 1 1 kpowW t4Zero t4One (by norm_num) (by norm_num)
    (by norm_num) (fun x => by simp [kpowW])

/-- C5 (amended): with a single power factor `(w,)`, `MSSIMLoss` performs
no downsampling, and its loss is the mean of `1 - relu(ssim)^w` — the
plain SSIM of the pair (computed with the post-auto-shrink state) is
first clamped at zero by `K.relu` before being raised to `w`. -/
theorem C5_single_scale (expf : ℚ → ℚ) (kpow : ℚ → ℚ → ℚ) (st : SSIMState)
    (w : ℚ) (N C S : ℕ) (yt yp : Img) (hpf : st.power_factors = [w]) :
    (MSSIM_call expf kpow st N C S yt yp).2
      = (Finset.sum (Finset.range N) (fun n =>
          Finset.sum (Finset.range C) (fun c =>
            1 - kpow (krelu ((get_ssim (update_filter expf st S) S yt yp).1 n c)) w))) /
        ((N : ℚ) * (C : ℚ)) := by
  have hpf2 : (update_filter expf st S).power_factors = [w] := by
    rw [update_filter_pf, hpf]
  unfold MSSIM_call get_ms_ssim
  dsimp only
  congr 1
  refine Finset.sum_congr rfl (fun n _ => Finset.sum_congr rfl (fun c _ => ?_))
  congr 1
  unfold ms_ssim_val
  rw [hpf2]
  simp [ms_components, prod_scales]

/-- C5 (counterexample): on a 2x2 anticorrelated checkerboard pair the
plain SSIM is negative (-4991/5009), so the code's `relu` clamps it to
zero and the loss is 1, while the claimed `mean(1 - ssim^w)` would be
10000/5009. -/
theorem C5_counterexample :
    (MSSIM_call expf1 kpowW stFS2 1 1 2 imgCheck1 imgCheck0).2
      ≠ MSSIM_single_claimed kpowW stFS2 1 1 2 1 imgCheck1 imgCheck0 := by
  norm_num [MSSIM_call, MSSIM_single_claimed, get_ms_ssim, ms_ssim_val,
    update_filter, get_smallest_size, ms_components, prod_scales, krelu,
    get_ssim, spatialMean, ssimMap, luminance, contrastMap, num_lum, den_lum,
    num_con, den_con, mu, depthwise_conv2d, imgMul, imgSq, imgAdd, kernelAt,
    stFS2, DSSIMObjective_init, getKernel, kernelEntry, ksoftmaxDen, kbowl,
    kquad, kcoord, expf1, kpowW, imgCheck0, imgCheck1, Finset.sum_range_succ,
    Finset.sum_range_zero, List.range_succ, List.range_zero]

/-- Witness for C5 on a concrete single-power configuration. -/
theorem C5_witness :
    (MSSIM_call expf1 kpowW stFS2 1 1 2 imgCheck1 imgCheck0).2
      = (Finset.sum (Finset.range 1) (fun n =>
          Finset.sum (Finset.range 1) (fun c =>
            1 - kpowW (krelu ((get_ssim (update_filter expf1 stFS2 2) 2
              imgCheck1 imgCheck0).1 n c)) 1))) /
        (((1 : ℕ) : ℚ) * ((1 : ℕ) : ℚ)) :=
  C5_single_scale expf1 kpowW stFS2 1 1 1 2 imgCheck1 imgCheck0 rfl

/-- C6: `LossWrapper._apply_mask` with `mask_channel = -1` passes the
first 3 channels of both tensors unmodified (pre-slicing); with a valid
nonnegative channel it multiplies each truncated tensor elementwise by
the reference tensor's mask channel broadcast to 3 channels, used
as-is (mix proportion 1.0) — the mask is never drawn from the
prediction tensor. -/
theorem C6_apply_mask (yt yp : T4) (mc : ℤ) (hmc : 0 ≤ mc) :
    apply_mask yt yp (-1) 1 = (take3ch yt, take3ch yp) ∧
    apply_mask yt yp mc 1
      = (zipMul4 (take3ch yt) (mask_claimed yt mc),
         zipMul4 (take3ch yp) (mask_claimed yt mc)) := by
  constructor
  · rfl
  · have hne : mc ≠ -1 := by omega
    simp only [apply_mask, if_neg hne]
    have hmap : ∀ t : T4, map4 (fun m => m * 1 + (1 - 1)) t = t := by
      intro t
      unfold map4
      simp
    rw [hmap]
    rfl

/-- Witness for C6 at mask channel 3 of a 4-channel reference tensor. -/
theorem C6_witness :
    apply_mask t4Mask t4Pred (-1) 1 = (take3ch t4Mask, take3ch t4Pred) ∧
    apply_mask t4Mask t4Pred 3 1
      = (zipMul4 (take3ch t4Mask) (mask_claimed t4Mask 3),
         zipMul4 (take3ch t4Pred) (mask_claimed t4Mask 3)) :=
  C6_apply_mask t4Mask t4Pred 3 (by norm_num)

/-- C7: exact self-similarity — on an identical pair every loss vanishes:
DSSIM is 0, the MS-SSIM loss is 0 (for an admissible configuration:
wellformed kernel, positive constants, nonempty power factors, smallest
scale at least 1), and GeneralizedLoss, LInfNorm and
GradientDifferenceLoss are identically zero, given the backend facts
`kpow 1 e = 1` and `kpow x 2 = x * x`. -/
theorem C7_self_similarity (expf : ℚ → ℚ) (kpow : ℚ → ℚ → ℚ)
    (st : SSIMState) (N C S : ℕ) (y : Img) (alpha beta : ℚ) (ly : T4)
    (hk : kernelOK st.kernel st.filter_size)
    (hc1 : 0 < st.c1) (hc2 : 0 < st.c2)
    (hexp : ∀ x, 0 < expf x)
    (hp1 : ∀ e, kpow 1 e = 1)
    (hp2 : ∀ x, kpow x 2 = x * x)
    (hpf : st.power_factors ≠ [])
    (hsm : 1 ≤ get_smallest_size S (st.power_factors.length - 1)) :
    DSSIM_call st N C S y y = 0 ∧
    (MSSIM_call expf kpow st N C S y y).2 = 0 ∧
    allZero3 (generalized_loss alpha beta kpow ly ly) ∧
    allZero3 (linf_norm ly ly) ∧
    allZero3 (gradient_loss kpow ly ly) := by
  refine ⟨?_, ?_, generalized_loss_self alpha beta kpow hp1 hp2 ly,
    linf_norm_self ly, gradient_loss_self kpow hp1 hp2 ly⟩
  · have hz : ∀ n c, (1 - (get_ssim st S y y).1 n c) / 2 = 0 := by
      intro n c
      rw [(get_ssim_self st hk hc1 hc2 S y).1 n c]
      norm_num
    unfold DSSIM_call
    rw [Finset.sum_congr rfl (fun n _ =>
      Finset.sum_congr rfl (fun c _ => hz n c))]
    simp
  · set st2 := update_filter expf st S with hst2
    have hkb : kernelOK st2.kernel st2.filter_size :=
      update_filter_kernelOK expf st S hk hexp hsm
    have hc1b : 0 < st2.c1 := by rw [hst2, update_filter_c1]; exact hc1
    have hc2b : 0 < st2.c2 := by rw [hst2, update_filter_c2]; exact hc2
    have hpfb : st2.power_factors ≠ [] := by
      rw [hst2, update_filter_pf]; exact hpf
    have hzero : ∀ n c, 1 - ms_ssim_val kpow st2 S y y n c = 0 := by
      intro n c
      rw [ms_ssim_val_self kpow st2 hkb hc1b hc2b hp1 hpfb S y n c]
      ring
    unfold MSSIM_call get_ms_ssim
    dsimp only
    rw [Finset.sum_congr rfl (fun n _ =>
      Finset.sum_congr rfl (fun c _ => hzero n c))]
    simp

/-- Witness for C7 on a concrete 1x1x1x1 half-intensity tensor and a
filter-size-1 component. -/
theorem C7_witness :
    DSSIM_call stFS1 1 1 1 imgHalf imgHalf = 0 ∧
    (MSSIM_call expf1 kpowW stFS1 1 1 1 imgHalf imgHalf).2 = 0 ∧
    allZero3 (generalized_loss 1 (1 / 255) kpowW t4Half t4Half) ∧
    allZero3 (linf_norm t4Half t4Half) ∧
    allZero3 (gradient_loss kpowW t4Half t4Half) :=
  C7_self_similarity expf1 kpowW stFS1 1 1 1 imgHalf 1 (1 / 255) t4Half
    (getKernel_OK expf1 (fun _ => one_pos) 1 le_rfl (3 / 2))
    (by norm_num [stFS1, DSSIMObjective_init])
    (by norm_num [stFS1, DSSIMObjective_init])
    (fun _ => one_pos)
    (fun e => by by_cases h : e = (2 : ℚ) <;> simp [kpowW, h])
    (fun x => by simp [kpowW])
    (by simp [stFS1, DSSIMObjective_init])
    (by simp [stFS1, DSSIMObjective_init, get_smallest_size])

/-- C8 (counterexample): the claim says `GeneralizedLoss` with
`alpha = 2` fails with an `InvalidParameter` error; on a concrete input
the call returns `Except.ok` — the source contains no validation and no
raise. -/
theorem C8_counterexample :
    (GeneralizedLoss_call 2 (1 / 255) kpowW t4One t4Zero).isOk = true := rfl

/-- C8 (amended): `GeneralizedLoss.__call__` performs no parameter
validation at all: for every `alpha` (including the singular values 0
and 2), every `beta` and every input pair the call returns a value,
never an error — the division-by-zero degeneracy flows into the
arithmetic instead of raising. -/
theorem C8_no_validation (alpha beta : ℚ) (kpow : ℚ → ℚ → ℚ)
    (y_true y_pred : T4) :
    (GeneralizedLoss_call alpha beta kpow y_true y_pred).isOk = true := rfl

/-- C9: `GMSDLoss.__call__` raises `FaceswapError` (the FeatureUnavailable
condition) unconditionally, before any edge computation, and invoking a
GMSD registration through the aggregator aborts the whole
`LossWrapper.__call__` with that error — no partial result and no
silently skipped sub-loss — provided the preceding registrations
themselves succeed. -/
theorem C9_gmsd_error (pre post : List LossRegistration) (w : ℚ) (mc : ℤ)
    (df : Bool) (y_true y_pred : T4) (hpre : ∀ r ∈ pre, totalReg r) :
    GMSDLoss_call y_true y_pred
      = Except.error { msg := "GMSD Loss is not currently compatible with PlaidML. Please select a different Loss method." } ∧
    LossWrapper_call
        (pre ++ { func := GMSDLoss_call, weight := w, mask_channel := mc,
                  is_dssim := df } :: post) y_true y_pred
      = Except.error { msg := "GMSD Loss is not currently compatible with PlaidML. Please select a different Loss method." } :=
  ⟨rfl, wrapper_aborts w mc df post y_true y_pred pre (WVal.scal 0) hpre⟩

/-- Witness for C9: a wrapper holding only a GMSD registration errors. -/
theorem C9_witness :
    GMSDLoss_call t4Half t4One
      = Except.error { msg := "GMSD Loss is not currently compatible with PlaidML. Please select a different Loss method." } ∧
    LossWrapper_call
        [{ func := GMSDLoss_call, weight := 1, mask_channel := -1,
           is_dssim := false }] t4Half t4One
      = Except.error { msg := "GMSD Loss is not currently compatible with PlaidML. Please select a different Loss method." } :=
  C9_gmsd_error [] [] 1 (-1) false t4Half t4One
    (fun r hr => absurd hr (List.not_mem_nil r))
